import Mathlib

/-!
Shallow embedding of the iarc7_safety package.

Source files:
- `src/src/iarc7_safety/SafetyClient.cpp` — per-node bond client: the
  broadcast handler `processSafetyMessage`, the bond callbacks `onBroken`
  and `onFormed`, the flag getters, and the blocking `formBond` /
  `waitUntilSafe` startup wait.
- `src/src/SafetyMonitor.cpp` — the arbiter `main`: startup bond
  formation, the per-cycle evaluation of `lowest_safe_priority`, the
  range assertion, and the decision publication.

The class header `SafetyClient.hpp` is not part of the sources; the
initial member values, the `fatal_message_` constant and the `getId`
accessor are modelled from the spec where noted.
-/

namespace Iarc7Safety

/-- State of one `SafetyClient` (the members of the class mutated by
`SafetyClient.cpp`): the immutable `bond_id_` and `fatal_message_`
strings, the bond flags `broken_` / `formed_`, and the monotone safety
flags `safety_active_` / `fatal_active_`. -/
structure ClientState where
  bond_id : String
  fatal_message : String
  broken : Bool
  formed : Bool
  safety_active : Bool
  fatal_active : Bool
deriving DecidableEq

/-- Modelled from the spec: the class header (absent from the sources)
declares the member initializers. Per the spec the safety flags are
"monotonically set true" from a clear start, the bond starts unformed,
and the fatal sentinel is the literal `"FATAL"`. -/
def initialClient (id : String) : ClientState :=
  { bond_id := id
    fatal_message := "FATAL"
    broken := false
    formed := false
    safety_active := false
    fatal_active := false }

/-- `SafetyClient::processSafetyMessage` (SafetyClient.cpp lines 54-65):
a message equal to `bond_id_` sets `safety_active_`; otherwise a message
equal to `fatal_message_` sets both `safety_active_` and
`fatal_active_`; otherwise nothing changes. -/
def processSafetyMessage (st : ClientState) (msg : String) : ClientState :=
  if msg = st.bond_id then
    { st with safety_active := true }
  else if msg = st.fatal_message then
    { st with safety_active := true, fatal_active := true }
  else
    st

/-- `SafetyClient::onBroken` (SafetyClient.cpp lines 77-84). -/
def onBroken (st : ClientState) : ClientState :=
  { st with broken := true, formed := false
            fatal_active := true, safety_active := true }

/-- `SafetyClient::onFormed` (SafetyClient.cpp lines 86-90): note that it
unconditionally clears `broken_`. -/
def onFormed (st : ClientState) : ClientState :=
  { st with broken := false, formed := true }

/-- `SafetyClient::isSafetyActive` (SafetyClient.cpp lines 67-70). -/
def isSafetyActive (st : ClientState) : Bool :=
  st.safety_active

/-- `SafetyClient::isFatalActive` (SafetyClient.cpp lines 72-75). -/
def isFatalActive (st : ClientState) : Bool :=
  st.fatal_active

/-- The operations that can hit a `SafetyClient` after construction: a
broadcast message delivered to `processSafetyMessage`, or one of the two
bond callbacks. -/
inductive ClientOp where
  | msg (m : String)
  | breakBond
  | formBondCb
deriving DecidableEq

/-- Apply one operation to a client state. -/
def applyOp (st : ClientState) : ClientOp → ClientState
  | .msg m => processSafetyMessage st m
  | .breakBond => onBroken st
  | .formBondCb => onFormed st

/-- Apply a sequence of operations, oldest first. -/
def applyOps (st : ClientState) (ops : List ClientOp) : ClientState :=
  ops.foldl applyOp st

/-- Outcome of one run of `SafetyClient::waitUntilSafe`'s loop on a
finite schedule: it returns a boolean, or control reaches the end of the
non-void function (when `ros::ok()` turns false), or the schedule ended
with the loop still spinning. -/
inductive WaitOutcome where
  | returns (b : Bool)
  | fallsOffEnd
  | stillLooping
deriving DecidableEq

/-- `SafetyClient::waitUntilSafe` (SafetyClient.cpp lines 34-52) run on a
finite schedule: each entry gives the value of `ros::ok()` at the loop
head and the operations delivered by that iteration's `ros::spinOnce()`.
When `ros::ok()` is false the `while` loop exits and control reaches the
end of the function with no `return` statement. -/
def waitUntilSafe (st : ClientState) : List (Bool × List ClientOp) → WaitOutcome
  | [] => .stillLooping
  | (ok, evs) :: rest =>
    if ok = false then .fallsOffEnd
    else if st.broken then .returns false
    else if st.formed then .returns true
    else waitUntilSafe (applyOps st evs) rest

/-- `SafetyClient::formBond` (SafetyClient.cpp lines 23-31): starts the
bond and delegates to `waitUntilSafe`. -/
def formBond (st : ClientState) (sched : List (Bool × List ClientOp)) : WaitOutcome :=
  waitUntilSafe st sched

/-- One index step of the arbiter's evaluation pass (SafetyMonitor.cpp
lines 95-112): at index `i`, `isSafetyActive` lowers
`lowest_safe_priority` to `min i lsp` and `isFatalActive` lowers it to
`min (i-1) lsp`. -/
def evalStep (lsp : Int) (i : Int) (st : ClientState) : Int :=
  let l1 := if isSafetyActive st then min i lsp else lsp
  if isFatalActive st then min (i - 1) l1 else l1

/-- The arbiter's `for` loop over the bonds, carrying the running index. -/
def evalPassAux (lsp : Int) (i : Int) : List ClientState → Int
  | [] => lsp
  | st :: rest => evalPassAux (evalStep lsp i st) (i + 1) rest

/-- One full evaluation pass over all bonds (SafetyMonitor.cpp lines
95-112), starting at index 0. -/
def evalPass (bonds : List ClientState) (lsp : Int) : Int :=
  evalPassAux lsp 0 bonds

/-- The `ROS_ASSERT_MSG` range check (SafetyMonitor.cpp lines 114-116):
`lowest_safe_priority > -2 && lowest_safe_priority < bonds.size()`. -/
def rosAssertRange (bonds : List ClientState) (lsp : Int) : Bool :=
  (-2 < lsp) && (lsp < (bonds.length : Int))

/-- Modelled from the spec: `SafetyClient::getId` is declared in the
missing header; per the spec it returns the node's immutable `id`. -/
def getId (st : ClientState) : String :=
  st.bond_id

/-- The decision publication (SafetyMonitor.cpp lines 118-140): if
`lowest_safe_priority > -1 && lowest_safe_priority < bonds.size() - 1`
publish `bonds[lowest_safe_priority]->getId()`; else if
`lowest_safe_priority < 0` publish the literal `"FATAL"`; else publish
nothing. -/
def publishDecision (bonds : List ClientState) (lsp : Int) : Option String :=
  if -1 < lsp ∧ lsp < (bonds.length : Int) - 1 then
    some ((bonds.map getId).getD lsp.toNat "")
  else if lsp < 0 then
    some "FATAL"
  else
    none

/-- Arbiter state: the owned bonds and the `lowest_safe_priority`
variable threaded from cycle to cycle. -/
structure ArbiterState where
  bonds : List ClientState
  lsp : Int
deriving DecidableEq

/-- Deliver one broadcast message to every subscribed client. -/
def deliverToAll (bonds : List ClientState) (msg : String) : List ClientState :=
  bonds.map (fun st => processSafetyMessage st msg)

/-- One iteration of the arbiter's `while(true)` loop (SafetyMonitor.cpp
lines 92-153): evaluate all bonds, publish the decision, then
`ros::spinOnce()` delivers the pending broadcast messages `inbox` to the
clients. Returns the next state and what was published. -/
def cycle (s : ArbiterState) (inbox : List String) : ArbiterState × Option String :=
  let lsp1 := evalPass s.bonds s.lsp
  let pub := publishDecision s.bonds lsp1
  let bonds1 := inbox.foldl deliverToAll s.bonds
  ({ bonds := bonds1, lsp := lsp1 }, pub)

/-- Startup bond construction (SafetyMonitor.cpp lines 63-89) over the
configured ids paired with each `formBond()` outcome: a formed bond has
had `onFormed` fire, a failed one has had `onBroken` fire; on the first
failure the remaining ids are skipped and the failed bond is kept. The
second component reports whether all bonds formed. -/
def buildBonds : List (String × Bool) → List ClientState × Bool
  | [] => ([], true)
  | (id, ok) :: rest =>
    if ok then
      (onFormed (initialClient id) :: (buildBonds rest).1, (buildBonds rest).2)
    else
      ([onBroken (initialClient id)], false)

/-- Full startup (SafetyMonitor.cpp lines 60-89): seed
`lowest_safe_priority` to `bond_ids.size() - 1`, then overwrite it with
`-1` if any bond failed to form. -/
def startup (entries : List (String × Bool)) : ArbiterState :=
  let built := buildBonds entries
  { bonds := built.1
    lsp := if built.2 then (entries.length : Int) - 1 else -1 }

/-- The `lowest_safe_priority` value after a sequence of cycles, where
each cycle sees an arbitrary snapshot of the bonds' flag states. -/
def lspAfter (lsp : Int) (trace : List (List ClientState)) : Int :=
  trace.foldl (fun l bs => evalPass bs l) lsp

/-- The 3-node fleet `[A, B, C]` of the spec scenarios, after all three
bonds formed successfully at startup. -/
def fleetABC : List ClientState :=
  [onFormed (initialClient "A"), onFormed (initialClient "B"), onFormed (initialClient "C")]

/-- The self-report scenario: all bonds formed (`lowest_safe_priority`
seeded to 2), node `B` publishes its own id (delivered at the first
cycle's `spinOnce`), then the next cycle evaluates and publishes. -/
def selfReportScenario : ArbiterState × Option String :=
  cycle (cycle { bonds := fleetABC, lsp := 2 } ["B"]).1 []

/-! ### Helper lemmas on the evaluation pass -/

/-- One evaluation step never raises `lowest_safe_priority`. -/
lemma evalStep_le (lsp i : Int) (st : ClientState) : evalStep lsp i st ≤ lsp := by
  unfold evalStep
  dsimp only
  split
  · split
    · exact le_trans (min_le_right _ _) (min_le_right _ _)
    · exact min_le_right _ _
  · split
    · exact min_le_right _ _
    · exact le_refl _

/-- One evaluation step at a non-negative index keeps
`lowest_safe_priority` at or above `-1`. -/
lemma evalStep_lb (lsp i : Int) (st : ClientState) (hl : -1 ≤ lsp) (hi : 0 ≤ i) :
    -1 ≤ evalStep lsp i st := by
  unfold evalStep
  dsimp only
  split
  · split
    · exact le_min (by omega) (le_min (by omega) hl)
    · exact le_min (by omega) hl
  · split
    · exact le_min (by omega) hl
    · exact hl

lemma evalPassAux_le (bonds : List ClientState) :
    ∀ (lsp i : Int), evalPassAux lsp i bonds ≤ lsp := by
  induction bonds with
  | nil => intro lsp i; exact le_refl _
  | cons st rest ih =>
    intro lsp i
    exact le_trans (ih (evalStep lsp i st) (i + 1)) (evalStep_le lsp i st)

lemma evalPassAux_lb (bonds : List ClientState) :
    ∀ (lsp i : Int), -1 ≤ lsp → 0 ≤ i → -1 ≤ evalPassAux lsp i bonds := by
  induction bonds with
  | nil => intro lsp i hl _; exact hl
  | cons st rest ih =>
    intro lsp i hl hi
    exact ih (evalStep lsp i st) (i + 1) (evalStep_lb lsp i st hl hi) (by omega)

lemma evalPass_le (bonds : List ClientState) (lsp : Int) :
    evalPass bonds lsp ≤ lsp :=
  evalPassAux_le bonds lsp 0

lemma evalPass_lb (bonds : List ClientState) (lsp : Int) (hl : -1 ≤ lsp) :
    -1 ≤ evalPass bonds lsp :=
  evalPassAux_lb bonds lsp 0 hl (le_refl 0)

/-- The fatal floor is a fixed point of the evaluation pass. -/
lemma evalPass_neg_one (bonds : List ClientState) :
    evalPass bonds (-1) = -1 :=
  le_antisymm (evalPass_le bonds (-1)) (evalPass_lb bonds (-1) (le_refl _))

lemma lspAfter_le (trace : List (List ClientState)) :
    ∀ lsp : Int, lspAfter lsp trace ≤ lsp := by
  induction trace with
  | nil => intro lsp; exact le_refl _
  | cons bs rest ih =>
    intro lsp
    exact le_trans (ih (evalPass bs lsp)) (evalPass_le bs lsp)

lemma lspAfter_lb (trace : List (List ClientState)) :
    ∀ lsp : Int, -1 ≤ lsp → -1 ≤ lspAfter lsp trace := by
  induction trace with
  | nil => intro lsp hl; exact hl
  | cons bs rest ih =>
    intro lsp hl
    exact ih (evalPass bs lsp) (evalPass_lb bs lsp hl)

lemma lspAfter_append (lsp : Int) (t1 t2 : List (List ClientState)) :
    lspAfter lsp (t1 ++ t2) = lspAfter (lspAfter lsp t1) t2 :=
  List.foldl_append _ _ _ _

/-! ### Helper lemmas on client flag monotonicity -/

/-- No operation ever clears `safety_active_`. -/
lemma safety_mono (st : ClientState) (op : ClientOp)
    (h : st.safety_active = true) : (applyOp st op).safety_active = true := by
  cases op with
  | msg m =>
    simp only [applyOp, processSafetyMessage]
    split
    · rfl
    · split
      · rfl
      · exact h
  | breakBond => rfl
  | formBondCb => exact h

/-- No operation ever clears `fatal_active_`. -/
lemma fatal_mono (st : ClientState) (op : ClientOp)
    (h : st.fatal_active = true) : (applyOp st op).fatal_active = true := by
  cases op with
  | msg m =>
    simp only [applyOp, processSafetyMessage]
    split
    · exact h
    · split
      · rfl
      · exact h
  | breakBond => rfl
  | formBondCb => exact h

lemma applyOps_safety_mono (ops : List ClientOp) :
    ∀ st : ClientState, st.safety_active = true →
      (applyOps st ops).safety_active = true := by
  induction ops with
  | nil => intro st h; exact h
  | cons op rest ih =>
    intro st h
    exact ih (applyOp st op) (safety_mono st op h)

lemma applyOps_fatal_mono (ops : List ClientOp) :
    ∀ st : ClientState, st.fatal_active = true →
      (applyOps st ops).fatal_active = true := by
  induction ops with
  | nil => intro st h; exact h
  | cons op rest ih =>
    intro st h
    exact ih (applyOp st op) (fatal_mono st op h)

/-- An operation other than `onFormed` never clears `broken_`. -/
lemma broken_persists (st : ClientState) (op : ClientOp)
    (hop : op ≠ ClientOp.formBondCb) (h : st.broken = true) :
    (applyOp st op).broken = true := by
  cases op with
  | msg m =>
    simp only [applyOp, processSafetyMessage]
    split
    · exact h
    · split
      · exact h
      · exact h
  | breakBond => rfl
  | formBondCb => exact absurd rfl hop

/-- Each operation preserves the invariant that `fatal_active_` implies
`safety_active_`. -/
lemma fatal_imp_safety_step (st : ClientState) (op : ClientOp)
    (h : st.fatal_active = true → st.safety_active = true) :
    (applyOp st op).fatal_active = true → (applyOp st op).safety_active = true := by
  cases op with
  | msg m =>
    simp only [applyOp, processSafetyMessage]
    split
    · intro _; rfl
    · split
      · intro _; rfl
      · exact h
  | breakBond => intro _; rfl
  | formBondCb => exact h

lemma applyOps_broken_persists (ops : List ClientOp) :
    ∀ st : ClientState, st.broken = true →
      (∀ op ∈ ops, op ≠ ClientOp.formBondCb) →
      (applyOps st ops).broken = true := by
  induction ops with
  | nil => intro st h _; exact h
  | cons op rest ih =>
    intro st h hops
    exact ih (applyOp st op)
      (broken_persists st op (hops op (List.mem_cons_self op rest)) h)
      (fun o ho => hops o (List.mem_cons_of_mem op ho))

lemma fatal_imp_safety_ops (ops : List ClientOp) :
    ∀ st : ClientState,
      (st.fatal_active = true → st.safety_active = true) →
      (applyOps st ops).fatal_active = true →
      (applyOps st ops).safety_active = true := by
  induction ops with
  | nil => intro st h; exact h
  | cons op rest ih =>
    intro st h
    exact ih (applyOp st op) (fatal_imp_safety_step st op h)

/-! ### Helper lemmas on startup and publication -/

lemma publishDecision_neg_one (bonds : List ClientState) :
    publishDecision bonds (-1) = some "FATAL" := by
  unfold publishDecision
  rw [if_neg (by omega), if_pos (by omega)]

lemma buildBonds_fail (pre : List (String × Bool))
    (hpre : ∀ e ∈ pre, e.2 = true) (id : String) (rest : List (String × Bool)) :
    (buildBonds (pre ++ (id, false) :: rest)).1.length = pre.length + 1 ∧
    (buildBonds (pre ++ (id, false) :: rest)).2 = false := by
  induction pre with
  | nil => simp [buildBonds]
  | cons e pre ih =>
    obtain ⟨a, b⟩ := e
    have he : b = true := hpre (a, b) (List.mem_cons_self _ _)
    subst he
    have ih2 := ih (fun o ho => hpre o (List.mem_cons_of_mem _ ho))
    simp only [List.cons_append]
    rw [show buildBonds ((a, true) :: (pre ++ (id, false) :: rest))
        = (onFormed (initialClient a) :: (buildBonds (pre ++ (id, false) :: rest)).1,
           (buildBonds (pre ++ (id, false) :: rest)).2) from rfl]
    exact ⟨by simp [ih2.1], ih2.2⟩

/-! ### Claim theorems -/

/-- C1, counterexample: in the 3-node scenario where `B` self-reports,
the next cycle does set `lowest_safe_priority` to 1, but the arbiter
publishes `"B"` — `bonds[1]->getId()` — not `"A"` as the claim states. -/
theorem selfReport_scenario_publishes_B_not_A :
    (selfReportScenario.1).lsp = 1 ∧
    selfReportScenario.2 = some "B" ∧
    selfReportScenario.2 ≠ some "A" := by
  decide

/-- C1, amended: after `B` (priority 1) self-reports, the next cycle
sets `lowest_safe_priority` to 1 and the arbiter publishes `"B"`, the id
of the node at index `lowest_safe_priority`. -/
theorem selfReport_scenario_publishes_B :
    (selfReportScenario.1).lsp = 1 ∧
    selfReportScenario.2 = some ((fleetABC.map getId).getD 1 "") ∧
    selfReportScenario.2 = some "B" := by
  decide

/-- C2: with `lowest_safe_priority` in the asserted range over a
non-empty bond list, the publication is exactly determined: `"FATAL"` at
`-1`, nothing at `N - 1`, and the id of the node at index
`lowest_safe_priority` strictly in between; every published string is an
id from the bond list or `"FATAL"`. -/
theorem decision_trichotomy (bonds : List ClientState) (lsp : Int)
    (hb : bonds ≠ []) (h1 : -1 ≤ lsp) (h2 : lsp ≤ (bonds.length : Int) - 1) :
    ((lsp = -1 ∧ lsp ≠ (bonds.length : Int) - 1) ∨
     (lsp = (bonds.length : Int) - 1 ∧ lsp ≠ -1) ∨
     (-1 < lsp ∧ lsp < (bonds.length : Int) - 1)) ∧
    (lsp = -1 → publishDecision bonds lsp = some "FATAL") ∧
    (lsp = (bonds.length : Int) - 1 → 0 ≤ lsp → publishDecision bonds lsp = none) ∧
    (-1 < lsp → lsp < (bonds.length : Int) - 1 →
      ∃ h : lsp.toNat < bonds.length,
        publishDecision bonds lsp = some (bonds.get ⟨lsp.toNat, h⟩).bond_id) ∧
    (∀ m, publishDecision bonds lsp = some m → m ∈ bonds.map getId ∨ m = "FATAL") := by
  have hN : 0 < bonds.length := List.length_pos.mpr hb
  refine ⟨?_, ?_, ?_, ?_, ?_⟩
  · have hNi : (1 : Int) ≤ (bonds.length : Int) := by exact_mod_cast hN
    omega
  · intro h
    subst h
    unfold publishDecision
    rw [if_neg (by omega), if_pos (by omega)]
  · intro h h0
    unfold publishDecision
    rw [if_neg (by omega), if_neg (by omega)]
  · intro hgt hlt
    have hnat : lsp.toNat < bonds.length := by omega
    refine ⟨hnat, ?_⟩
    unfold publishDecision
    rw [if_pos ⟨hgt, hlt⟩]
    have hlen : lsp.toNat < (bonds.map getId).length := by
      simpa using hnat
    rw [List.getD_eq_getElem (bonds.map getId) "" hlen]
    simp [getId]
  · intro m hm
    by_cases hc1 : -1 < lsp ∧ lsp < (bonds.length : Int) - 1
    · rw [publishDecision, if_pos hc1] at hm
      injection hm with hm
      left
      have hlen : lsp.toNat < (bonds.map getId).length := by
        simp only [List.length_map]
        omega
      rw [← hm, List.getD_eq_getElem (bonds.map getId) "" hlen]
      exact List.getElem_mem hlen
    · rw [publishDecision, if_neg hc1] at hm
      by_cases hc2 : lsp < 0
      · rw [if_pos hc2] at hm
        injection hm with hm
        right
        exact hm.symm
      · rw [if_neg hc2] at hm
        cases hm

/-- C2, witness: on the 3-node fleet with `lowest_safe_priority = 1` the
published decision is `"B"`, the id at index 1. -/
theorem decision_trichotomy_witness :
    publishDecision fleetABC 1 = some "B" := by
  obtain ⟨h, hp⟩ :=
    (decision_trichotomy fleetABC 1 (by decide) (by decide) (by decide)).2.2.2.1
      (by decide) (by decide)
  rw [hp]
  rfl

/-- C3: `lowest_safe_priority` is non-increasing over time — every
single evaluation step only lowers it, and after any further cycles (on
arbitrary flag states) its value is at most any earlier value. -/
theorem lowest_safe_priority_monotone :
    (∀ (lsp i : Int) (st : ClientState), evalStep lsp i st ≤ lsp) ∧
    (∀ (seed : Int) (t1 t2 : List (List ClientState)),
      lspAfter seed (t1 ++ t2) ≤ lspAfter seed t1) := by
  refine ⟨evalStep_le, ?_⟩
  intro seed t1 t2
  rw [lspAfter_append]
  exact lspAfter_le t2 (lspAfter seed t1)

/-- C4: from either seed (`N - 1` on full formation, `-1` on failure)
and after any number of evaluation passes, `lowest_safe_priority` stays
in `[-1, N)`, so the `ROS_ASSERT_MSG` range check never fires. -/
theorem lowest_safe_priority_range (bonds : List ClientState) (hb : bonds ≠ [])
    (seed : Int) (hs : seed = (bonds.length : Int) - 1 ∨ seed = -1)
    (trace : List (List ClientState)) :
    -1 ≤ lspAfter seed trace ∧ lspAfter seed trace < (bonds.length : Int) ∧
    rosAssertRange bonds (lspAfter seed trace) = true := by
  have hN : 0 < bonds.length := List.length_pos.mpr hb
  have hNi : (1 : Int) ≤ (bonds.length : Int) := by exact_mod_cast hN
  have hseed : -1 ≤ seed := by rcases hs with h | h <;> omega
  have hlb := lspAfter_lb trace seed hseed
  have hle := lspAfter_le trace seed
  have hub : lspAfter seed trace < (bonds.length : Int) := by
    rcases hs with h | h <;> omega
  refine ⟨hlb, hub, ?_⟩
  simp only [rosAssertRange, Bool.and_eq_true, decide_eq_true_eq]
  exact ⟨by omega, hub⟩

/-- C4, witness: a 1-node fleet seeded at 0 with no cycles run. -/
theorem lowest_safe_priority_range_witness :
    -1 ≤ lspAfter 0 [] ∧
    lspAfter 0 [] < (([initialClient "A"] : List ClientState).length : Int) ∧
    rosAssertRange [initialClient "A"] (lspAfter 0 []) = true :=
  lowest_safe_priority_range [initialClient "A"] (by decide) 0
    (Or.inl (by decide)) []

/-- C5, counterexample: after `onBroken` has fired, a later `onFormed`
callback does return the client to a formed, non-broken state — the
broken flag regresses to false. -/
theorem onFormed_revives_broken :
    (applyOps (onBroken (initialClient "X")) [ClientOp.formBondCb]).broken = false ∧
    (applyOps (onBroken (initialClient "X")) [ClientOp.formBondCb]).formed = true := by
  decide

/-- C5, amended: once `onBroken` has fired, no subsequent operation
other than an `onFormed` callback ever clears the broken flag: along any
operation sequence containing no `onFormed`, `broken_` stays true. -/
theorem broken_absorbing_without_onFormed (st : ClientState)
    (ops : List ClientOp) (hops : ∀ op ∈ ops, op ≠ ClientOp.formBondCb) :
    (applyOps (onBroken st) ops).broken = true :=
  applyOps_broken_persists ops (onBroken st) rfl hops

/-- C5, witness: a broken client stays broken under a broadcast message
and a second break. -/
theorem broken_absorbing_without_onFormed_witness :
    (applyOps (onBroken (initialClient "A"))
      [ClientOp.msg "FATAL", ClientOp.breakBond]).broken = true :=
  broken_absorbing_without_onFormed (initialClient "A")
    [ClientOp.msg "FATAL", ClientOp.breakBond] (by decide)

/-- C6: when `ros::ok()` is false at the loop head before either
callback has fired, `formBond`'s wait loop exits without executing any
`return` — control falls off the end of the non-void `waitUntilSafe`, a
third outcome beyond the claimed true/false pair. -/
theorem waitUntilSafe_falls_off_end :
    formBond (initialClient "A") [(false, [])] = WaitOutcome.fallsOffEnd ∧
    ∀ b : Bool, formBond (initialClient "A") [(false, [])] ≠ WaitOutcome.returns b := by
  decide

/-- C7: when the bond for the `(k)`-th configured node fails to form
after `k - 1` successes, startup stops with exactly `k` links kept,
seeds `lowest_safe_priority` to `-1`, and the first loop cycle publishes
`"FATAL"`. -/
theorem startup_failure_first_cycle_fatal (pre : List (String × Bool))
    (hpre : ∀ e ∈ pre, e.2 = true) (id : String) (rest : List (String × Bool)) :
    (startup (pre ++ (id, false) :: rest)).bonds.length = pre.length + 1 ∧
    (startup (pre ++ (id, false) :: rest)).lsp = -1 ∧
    (cycle (startup (pre ++ (id, false) :: rest)) []).2 = some "FATAL" := by
  obtain ⟨hlen, hfail⟩ := buildBonds_fail pre hpre id rest
  have hlsp : (startup (pre ++ (id, false) :: rest)).lsp = -1 := by
    simp [startup, hfail]
  refine ⟨by simpa [startup] using hlen, hlsp, ?_⟩
  have hc : (cycle (startup (pre ++ (id, false) :: rest)) []).2
      = publishDecision (startup (pre ++ (id, false) :: rest)).bonds
          (evalPass (startup (pre ++ (id, false) :: rest)).bonds
            (startup (pre ++ (id, false) :: rest)).lsp) := rfl
  rw [hc, hlsp, evalPass_neg_one, publishDecision_neg_one]

/-- C7, witness: two configured nodes where the second bond fails —
two links kept, seed `-1`, first cycle publishes `"FATAL"`. -/
theorem startup_failure_first_cycle_fatal_witness :
    (startup ([("A", true)] ++ ("B", false) :: [])).bonds.length
      = [("A", true)].length + 1 ∧
    (startup ([("A", true)] ++ ("B", false) :: [])).lsp = -1 ∧
    (cycle (startup ([("A", true)] ++ ("B", false) :: [])) []).2 = some "FATAL" :=
  startup_failure_first_cycle_fatal [("A", true)] (by decide) "B" []

/-- C8: once `onBroken` has fired, `isSafetyActive` and `isFatalActive`
return true after every further operation sequence — no broadcast
message or callback ever clears either flag. -/
theorem onBroken_flags_permanent (st : ClientState) (ops : List ClientOp) :
    isSafetyActive (applyOps (onBroken st) ops) = true ∧
    isFatalActive (applyOps (onBroken st) ops) = true :=
  ⟨applyOps_safety_mono ops (onBroken st) rfl,
   applyOps_fatal_mono ops (onBroken st) rfl⟩

/-- C9: after any operation sequence from a freshly constructed client,
`fatal_active_` implies `safety_active_`. -/
theorem fatal_implies_safety (id : String) (ops : List ClientOp)
    (h : (applyOps (initialClient id) ops).fatal_active = true) :
    (applyOps (initialClient id) ops).safety_active = true :=
  fatal_imp_safety_ops ops (initialClient id)
    (fun hf => absurd hf (by simp [initialClient])) h

/-- C9, witness: a bond break sets fatal, and safety is indeed set. -/
theorem fatal_implies_safety_witness :
    (applyOps (initialClient "A") [ClientOp.breakBond]).safety_active = true :=
  fatal_implies_safety "A" [ClientOp.breakBond] (by decide)

/-- C10: `processSafetyMessage` tests the own-id branch before the fatal
branch — the client's own id sets only `safety_active_` (the rest of the
state, `fatal_active_` included, is unchanged); when `bond_id_` equals
the fatal sentinel, receiving the sentinel leaves `fatal_active_` at its
prior value; a message matching neither string changes nothing. -/
theorem processSafetyMessage_order (st : ClientState) (m : String) :
    (processSafetyMessage st st.bond_id = { st with safety_active := true }) ∧
    (st.bond_id = st.fatal_message →
      (processSafetyMessage st st.fatal_message).safety_active = true ∧
      (processSafetyMessage st st.fatal_message).fatal_active = st.fatal_active) ∧
    (m ≠ st.bond_id → m ≠ st.fatal_message → processSafetyMessage st m = st) := by
  refine ⟨?_, ?_, ?_⟩
  · simp [processSafetyMessage]
  · intro hid
    rw [← hid]
    simp [processSafetyMessage]
  · intro h1 h2
    simp [processSafetyMessage, h1, h2]

/-- C10, witness: a client whose id is the sentinel `"FATAL"` receiving
`"FATAL"` gains `safety_active_` but keeps `fatal_active_` false, and an
unrelated message changes nothing. -/
theorem processSafetyMessage_order_witness :
    (processSafetyMessage (initialClient "FATAL") "FATAL").safety_active = true ∧
    (processSafetyMessage (initialClient "FATAL") "FATAL").fatal_active = false ∧
    processSafetyMessage (initialClient "FATAL") "X" = initialClient "FATAL" := by
  have h := processSafetyMessage_order (initialClient "FATAL") "X"
  have h2 := h.2.1 rfl
  exact ⟨h2.1, h2.2, h.2.2 (by decide) (by decide)⟩

end Iarc7Safety
